import Mathlib

/-!
Verification of the tally metrics core.

The embedding follows src/types.go: the `Stopwatch` struct and its `Stop`
method, plus the interface types (`ResetOptions`, `SnapshotResetProvider`,
`Buckets`/`BucketPair`, `Scope`) are translated directly.  The concrete
implementations behind the interfaces (counters, gauges, bucket generation
and classification, the scope registry) are not part of src/, so they are
modelled from the specification, as marked on each definition.

Go `float64` sample and boundary values are embedded as exact rationals
(the operations involved are comparisons and the spec's closed-form
generation rules), `time.Duration` and `time.Time` as integer nanoseconds.
-/

namespace Tally

/-- Go `time.Duration` (an int64 count of nanoseconds), as used by
src/types.go for timers and stopwatches. -/
abbrev Duration := Int

/-- A Go `time.Time` instant, modelled as integer nanoseconds since an epoch;
only differences of instants are ever used. -/
abbrev Time := Int

/-- From src/types.go (lines 119-121): a call of
`StopwatchRecorder.RecordStopwatch`, carrying the identity of the recorder
interface value that was invoked and the `stopwatchStart` argument passed
to it. -/
structure RecorderCall where
  recorder : Nat
  stopwatchStart : Time
deriving DecidableEq

/-- From src/types.go (lines 101-104): `Stopwatch` holds a start time and a
`StopwatchRecorder` interface value.  A Go interface value may be nil, which
is modelled as `none`; a concrete recorder is identified by a `Nat`. -/
structure Stopwatch where
  start : Time
  recorder : Option Nat
deriving DecidableEq

/-- From src/types.go (lines 108-110): `NewStopwatch` builds the immutable
stopwatch value from a start time and a recorder. -/
def NewStopwatch (start : Time) (r : Option Nat) : Stopwatch :=
  { start := start, recorder := r }

/-- From src/types.go (lines 113-115): `Stop` executes
`sw.recorder.RecordStopwatch(sw.start)` — exactly one call on the recorder,
passing the stored start time, with no nil guard: on a nil recorder the
method call faults (`none`).  The receiver is a Go value receiver, so the
`Stopwatch` value itself is never mutated; correspondingly the embedding
returns only the emitted call. -/
def Stopwatch.Stop (sw : Stopwatch) : Option RecorderCall :=
  sw.recorder.map (fun r => { recorder := r, stopwatchStart := sw.start })

/-- The Go zero value of the `Stopwatch` struct: zero start time and a nil
recorder interface. -/
def zeroStopwatch : Stopwatch := { start := 0, recorder := none }

/-- Calling `Stop` `n` times in sequence on the same stopwatch value (the
value receiver leaves the receiver unchanged, so every call sees the same
value); collects the recorder calls emitted, faulting if any call faults. -/
def Stopwatch.stopTimes (sw : Stopwatch) : Nat → Option (List RecorderCall)
  | 0 => some []
  | n + 1 => do
    let c ← sw.Stop
    let cs ← sw.stopTimes n
    pure (c :: cs)

/-- Modelled from the spec: the Timer/Histogram implementation of
`StopwatchRecorder` (absent from src/, which declares only the interface)
computes the elapsed duration `now - stopwatchStart` and records it. -/
def RecordStopwatch (now stopwatchStart : Time) : Duration :=
  now - stopwatchStart

/-- The duration the recorder ends up recording when the `Stop` of `sw` is
processed at instant `now`: the emitted call fed to `RecordStopwatch`. -/
def Stopwatch.recordedElapsed (sw : Stopwatch) (now : Time) : Option Duration :=
  sw.Stop.map (fun c => RecordStopwatch now c.stopwatchStart)

/-- From src/types.go (lines 183-187): `ResetOptions` with its three flag
fields; there is no flag for gauges. -/
structure ResetOptions where
  ResetCounters : Bool
  ResetTimers : Bool
  ResetHistograms : Bool
deriving DecidableEq

/-- Modelled from the spec: the accumulators of one scope's metric
primitives, whose implementations are absent from src/ (only the `Counter`,
`Gauge`, `Timer`, `Histogram` and snapshot interfaces are declared): a
counter is an accumulated signed delta, a gauge is last-write-wins, a timer
buffers observed durations, a histogram keeps per-bucket observation
counts. -/
structure MetricsState where
  counter : Int
  gauge : ℚ
  timer : List Duration
  histogram : List Nat
deriving DecidableEq

/-- Modelled from the spec: `Counter.Inc` adds an arbitrary signed delta. -/
def MetricsState.inc (s : MetricsState) (delta : Int) : MetricsState :=
  { s with counter := s.counter + delta }

/-- Apply a sequence of `Inc` calls in order. -/
def MetricsState.incAll (s : MetricsState) (ds : List Int) : MetricsState :=
  ds.foldl MetricsState.inc s

/-- Modelled from the spec: `Gauge.Update` sets the absolute value. -/
def MetricsState.update (s : MetricsState) (v : ℚ) : MetricsState :=
  { s with gauge := v }

/-- From src/types.go (lines 154-167, 205-238): the immutable snapshot
record returned by the snapshot protocol, copying each accumulator. -/
structure SnapshotRec where
  counterValue : Int
  gaugeValue : ℚ
  timerValues : List Duration
  histogramCounts : List Nat
deriving DecidableEq

/-- Modelled from the spec: `SnapshotReset(opts)` (src/types.go lines
178-180 declare only the `SnapshotResetProvider` interface) collects the
current values into a snapshot and then clears the accumulators selected by
`ResetOptions` — counters to 0, timers to empty, histogram bucket counts to
0.  Gauges have no reset flag and always retain their last value. -/
def MetricsState.snapshotReset (s : MetricsState) (opts : ResetOptions) :
    SnapshotRec × MetricsState :=
  (⟨s.counter, s.gauge, s.timer, s.histogram⟩,
   { counter := if opts.ResetCounters then 0 else s.counter
     gauge := s.gauge
     timer := if opts.ResetTimers then [] else s.timer
     histogram :=
       if opts.ResetHistograms then s.histogram.map (fun _ => 0) else s.histogram })

/-- Modelled from the spec: histogram classification (src/types.go lines
138-143 declare only the `BucketPair` interface).  The index of the derived
bucket a sample falls into is the number of leading boundaries that are
`≤` the sample; with `n` sorted boundaries the derived buckets are numbered
`0` (the implicit `(-inf, first)` bucket) through `n` (the final
`[last, +inf)` bucket). -/
def bucketIndex : List ℚ → ℚ → Nat
  | [], _ => 0
  | b :: rest, v => if b ≤ v then bucketIndex rest v + 1 else 0

/-- Lower bound of derived bucket `i` (`none` stands for `-inf`). -/
def bucketLower (bounds : List ℚ) (i : Nat) : Option ℚ :=
  if i = 0 then none else bounds[i - 1]?

/-- Upper bound of derived bucket `i` (`none` stands for `+inf`). -/
def bucketUpper (bounds : List ℚ) (i : Nat) : Option ℚ :=
  bounds[i]?

/-- Sample `v` lies in derived bucket `i`: `lower ≤ v < upper`, with the
respective comparison dropped at an infinite end. -/
def memBucket (bounds : List ℚ) (i : Nat) (v : ℚ) : Bool :=
  (match bucketLower bounds i with
   | none => true
   | some lo => decide (lo ≤ v)) &&
  (match bucketUpper bounds i with
   | none => true
   | some hi => decide (v < hi))

/-- Per-bucket observation counts after recording the samples `vs` against
boundaries `bounds`: one count for each of the `bounds.length + 1` derived
buckets. -/
def bucketCounts (bounds : List ℚ) (vs : List ℚ) : List Nat :=
  (List.range (bounds.length + 1)).map
    (fun i => (vs.filter (fun v => bucketIndex bounds v = i)).length)

/-- The boundary list generated by the linear rule: `start + i*width` for
`i` in `[0, n)`. -/
def linearBucketList (start width : ℚ) (n : Nat) : List ℚ :=
  (List.range n).map (fun (i : Nat) => start + (i : ℚ) * width)

/-- Modelled from the spec: `MakeLinearValueBuckets(start, width, count)`
(absent from src/) produces `count` boundaries `start + i*width`; a count
below 1 is a fail-fast construction error. -/
def MakeLinearValueBuckets (start width : ℚ) (count : Int) :
    Except String (List ℚ) :=
  if count < 1 then .error "n needs to be more than 0"
  else .ok (linearBucketList start width count.toNat)

/-- The boundary list generated by the exponential rule: `start * factor^i`
for `i` in `[0, n)`. -/
def expBucketList (start factor : ℚ) (n : Nat) : List ℚ :=
  (List.range n).map (fun (i : Nat) => start * factor ^ i)

/-- Modelled from the spec: `MakeExponentialValueBuckets(start, factor,
count)` (absent from src/) produces `count` boundaries `start * factor^i`;
a count below 1, a non-positive start, or a factor of at most 1 is a
fail-fast construction error. -/
def MakeExponentialValueBuckets (start factor : ℚ) (count : Int) :
    Except String (List ℚ) :=
  if count < 1 then .error "n needs to be more than 0"
  else if start ≤ 0 then .error "start needs to be more than 0"
  else if factor ≤ 1 then .error "factor needs to be more than 1"
  else .ok (expBucketList start factor count.toNat)

/-- A Go `map[string]string` of tags, embedded as an association list with
first-match lookup. -/
abbrev Tags := List (String × String)

/-- Lookup of a tag key, first match wins. -/
def lookupTag : Tags → String → Option String
  | [], _ => none
  | (k, v) :: rest, key => if k = key then some v else lookupTag rest key

/-- Modelled from the spec: the merged tag set of a child scope — the
child's own entries overlaid on the parent's, the child winning every key
collision. -/
def mergeTags (parent child : Tags) : Tags :=
  child ++ parent.filter (fun p => lookupTag child p.1 = none)

/-- Byte-wise lexicographic comparison of the character lists of two
strings (used only to pick a canonical order of tag keys). -/
def charsLt : List Char → List Char → Bool
  | [], [] => false
  | [], _ :: _ => true
  | _ :: _, [] => false
  | x :: xs, y :: ys =>
    if x.val < y.val then true
    else if y.val < x.val then false
    else charsLt xs ys

/-- String comparison via `charsLt`. -/
def strLt (a b : String) : Bool :=
  charsLt a.data b.data

/-- Insert one tag entry into a key-ordered tag list. -/
def insertTag (t : String × String) : Tags → Tags
  | [] => [t]
  | u :: us => if strLt t.1 u.1 then t :: u :: us else u :: insertTag t us

/-- Canonical (key-sorted) form of a tag set: the structural-equality
fingerprint under which child scopes are cached — two argument maps that
hold the same entries in different order produce the same fingerprint. -/
def sortTags (ts : Tags) : Tags :=
  ts.foldr insertTag []

/-- Modelled from the spec: one scope instance — an identity (so that
cache hits returning the same instance are observable), its effective name
and its effective tag set.  src/types.go (lines 31-60) declares only the
`Scope` interface. -/
structure ScopeObj where
  sid : Nat
  sname : String
  stags : Tags
deriving DecidableEq

/-- Modelled from the spec: the shared registry backing a scope tree —
cached child scopes keyed by (name, canonical tag fingerprint), cached
counter accumulators keyed by (scope identity, counter name), and a
fresh-identity counter. -/
structure Registry where
  scopes : List ((String × Tags) × ScopeObj)
  counters : List ((Nat × String) × Nat)
  fresh : Nat
deriving DecidableEq

/-- The empty registry. -/
def Registry.empty : Registry := ⟨[], [], 0⟩

/-- Cache lookup of a child scope by key. -/
def findScope (reg : Registry) (key : String × Tags) : Option ScopeObj :=
  (reg.scopes.find? (fun e => e.1 = key)).map (fun e => e.2)

/-- Modelled from the spec: `Tagged(tags)` returns a scope with `tags`
merged over the current tag set (child wins key collisions) and the same
name, returning the cached child when one already exists for the same
(name, merged tag set) key and creating and caching it otherwise. -/
def Registry.tagged (reg : Registry) (sc : ScopeObj) (ts : Tags) :
    Registry × ScopeObj :=
  let merged := mergeTags sc.stags ts
  let key := (sc.sname, sortTags merged)
  match findScope reg key with
  | some s => (reg, s)
  | none =>
    let s : ScopeObj := ⟨reg.fresh, sc.sname, merged⟩
    ({ reg with scopes := (key, s) :: reg.scopes, fresh := reg.fresh + 1 }, s)

/-- Modelled from the spec: name composition — the parent name extended by
a separator and the child segment (a root with empty name contributes no
separator). -/
def joinName (parent seg : String) : String :=
  if parent = "" then seg else parent ++ "." ++ seg

/-- Modelled from the spec: `SubScope(name)` returns a scope with the name
extended by `name` and the same tags, with the same cache rule as
`Tagged`. -/
def Registry.subScope (reg : Registry) (sc : ScopeObj) (seg : String) :
    Registry × ScopeObj :=
  let nm := joinName sc.sname seg
  let key := (nm, sortTags sc.stags)
  match findScope reg key with
  | some s => (reg, s)
  | none =>
    let s : ScopeObj := ⟨reg.fresh, nm, sc.stags⟩
    ({ reg with scopes := (key, s) :: reg.scopes, fresh := reg.fresh + 1 }, s)

/-- Modelled from the spec: `Counter(name)` returns the cached accumulator
for `(scope, name)`, creating it on first access; the returned `Nat` is the
accumulator's identity. -/
def Registry.counter (reg : Registry) (sc : ScopeObj) (nm : String) :
    Registry × Nat :=
  match (reg.counters.find? (fun e => e.1 = (sc.sid, nm))).map (fun e => e.2) with
  | some c => (reg, c)
  | none =>
    let reg1 : Registry :=
      { reg with
        counters := ((sc.sid, nm), reg.fresh) :: reg.counters
        fresh := reg.fresh + 1 }
    (reg1, reg.fresh)

/-! ## Theorems -/

theorem incAll_counter (s : MetricsState) (ds : List Int) :
    (s.incAll ds).counter = s.counter + ds.sum := by
  induction ds generalizing s with
  | nil => simp [MetricsState.incAll]
  | cons d ds ih =>
    have h : (s.incAll (d :: ds)) = (s.inc d).incAll ds := rfl
    rw [h, ih]
    simp [MetricsState.inc, add_assoc]

/-- C1: increments applied between two consecutive `SnapshotReset` calls
with `ResetCounters = true` are reflected exactly once in exactly one
snapshot: the first snapshot shows the prior value plus the sum of the
first window's deltas and resets the counter, and the second snapshot shows
exactly the sum of the second window's deltas — nothing is lost or
double-counted across the reset boundary. -/
theorem counter_reset_window_exact (s : MetricsState) (ds1 ds2 : List Int)
    (opts : ResetOptions) (h : opts.ResetCounters = true) :
    (((s.incAll ds1).snapshotReset opts).1.counterValue = s.counter + ds1.sum) ∧
    (((((s.incAll ds1).snapshotReset opts).2.incAll ds2).snapshotReset
        opts).1.counterValue = ds2.sum) := by
  constructor
  · simp [MetricsState.snapshotReset, incAll_counter]
  · simp [MetricsState.snapshotReset, incAll_counter, h]

theorem counter_reset_window_exact_witness :
    ((((⟨0, 0, [], []⟩ : MetricsState).incAll [5, 3]).snapshotReset
        ⟨true, true, true⟩).1.counterValue = 8) ∧
    (((((⟨0, 0, [], []⟩ : MetricsState).incAll [5, 3]).snapshotReset
        ⟨true, true, true⟩).2.incAll [2]).snapshotReset
        ⟨true, true, true⟩).1.counterValue = 2 := by
  have h := counter_reset_window_exact ⟨0, 0, [], []⟩ [5, 3] [2]
    ⟨true, true, true⟩ rfl
  exact ⟨h.1, h.2⟩

/-- C3: on completion `Stop` performs exactly one call on its recorder,
passing the stopwatch start, and the duration the recorder thereby records
when the stop happens at instant `now` is the elapsed time `now - start`. -/
theorem stop_records_elapsed (sw : Stopwatch) (r : Nat) (now : Time)
    (h : sw.recorder = some r) :
    sw.Stop = some ⟨r, sw.start⟩ ∧
    sw.recordedElapsed now = some (now - sw.start) := by
  simp [Stopwatch.Stop, Stopwatch.recordedElapsed, RecordStopwatch, h]

theorem stop_records_elapsed_witness :
    (NewStopwatch 10 (some 1)).Stop = some ⟨1, 10⟩ ∧
    (NewStopwatch 10 (some 1)).recordedElapsed 25 = some 15 :=
  stop_records_elapsed (NewStopwatch 10 (some 1)) 1 25 rfl

/-- C4: `Stop` is not idempotent in side effect: each call performs exactly
one report to the recorder, so two sequential calls on the same (unchanged,
value-receiver) stopwatch value emit exactly two identical recorder
invocations. -/
theorem stop_double_reports (sw : Stopwatch) (r : Nat)
    (h : sw.recorder = some r) :
    sw.Stop = some ⟨r, sw.start⟩ ∧
    sw.stopTimes 2 = some [⟨r, sw.start⟩, ⟨r, sw.start⟩] := by
  refine ⟨by simp [Stopwatch.Stop, h], ?_⟩
  simp [Stopwatch.stopTimes, Stopwatch.Stop, h]

theorem stop_double_reports_witness :
    (NewStopwatch 7 (some 3)).Stop = some ⟨3, 7⟩ ∧
    (NewStopwatch 7 (some 3)).stopTimes 2 = some [⟨3, 7⟩, ⟨3, 7⟩] :=
  stop_double_reports (NewStopwatch 7 (some 3)) 3 rfl

/-- C5: `SnapshotReset` never resets gauges — after any `SnapshotReset`,
with any flag combination, every gauge retains its last written value — and
a `ResetOptions` value is determined entirely by its three flags
`ResetCounters`, `ResetTimers`, `ResetHistograms` (there is no gauge
flag). -/
theorem snapshot_reset_preserves_gauges :
    (∀ (s : MetricsState) (opts : ResetOptions),
      ((s.snapshotReset opts).2).gauge = s.gauge) ∧
    (∀ a b : ResetOptions,
      a.ResetCounters = b.ResetCounters → a.ResetTimers = b.ResetTimers →
      a.ResetHistograms = b.ResetHistograms → a = b) := by
  constructor
  · intro s opts; rfl
  · intro a b h1 h2 h3
    cases a; cases b
    simp_all

theorem snapshot_reset_preserves_gauges_witness :
    (((⟨4, 9, [2], [0]⟩ : MetricsState).snapshotReset
        ⟨true, true, true⟩).2).gauge = 9 ∧
    (⟨true, false, true⟩ : ResetOptions) = ⟨true, false, true⟩ :=
  ⟨snapshot_reset_preserves_gauges.1 ⟨4, 9, [2], [0]⟩ ⟨true, true, true⟩,
   snapshot_reset_preserves_gauges.2 ⟨true, false, true⟩ ⟨true, false, true⟩
     rfl rfl rfl⟩

theorem pairwise_lt_map_range (f : Nat → ℚ) (n : Nat)
    (hf : ∀ i j, i < j → f i < f j) :
    List.Pairwise (· < ·) ((List.range n).map f) := by
  rw [List.pairwise_map]
  exact (List.pairwise_lt_range n).imp (fun h => hf _ _ h)

theorem bucketIndex_le_length (bounds : List ℚ) (v : ℚ) :
    bucketIndex bounds v ≤ bounds.length := by
  induction bounds with
  | nil => simp [bucketIndex]
  | cons b rest ih =>
    by_cases h : b ≤ v
    · simpa [bucketIndex, h] using ih
    · simp [bucketIndex, h]

theorem memBucket_cons_succ (b : ℚ) (rest : List ℚ) (j : Nat) (v : ℚ)
    (hb : b ≤ v) :
    memBucket (b :: rest) (j + 1) v = memBucket rest j v := by
  cases j with
  | zero => simp [memBucket, bucketLower, bucketUpper, hb]
  | succ k => simp [memBucket, bucketLower, bucketUpper]

theorem memBucket_bucketIndex (bounds : List ℚ) (v : ℚ)
    (hs : List.Sorted (· ≤ ·) bounds) :
    memBucket bounds (bucketIndex bounds v) v = true := by
  induction bounds with
  | nil => rfl
  | cons b rest ih =>
    rw [List.sorted_cons] at hs
    by_cases h : b ≤ v
    · simp only [bucketIndex, if_pos h]
      rw [memBucket_cons_succ b rest _ v h]
      exact ih hs.2
    · have hv : v < b := not_le.mp h
      simp [bucketIndex, if_neg h, memBucket, bucketLower, bucketUpper, hv]

theorem memBucket_unique (bounds : List ℚ) (v : ℚ)
    (hs : List.Sorted (· ≤ ·) bounds) :
    ∀ j, j ≤ bounds.length → memBucket bounds j v = true →
      j = bucketIndex bounds v := by
  induction bounds with
  | nil =>
    intro j hj _
    have hj0 : j = 0 := Nat.le_zero.mp hj
    simp [hj0, bucketIndex]
  | cons b rest ih =>
    rw [List.sorted_cons] at hs
    intro j hj hmem
    by_cases h : b ≤ v
    · cases j with
      | zero =>
        exfalso
        have hvb : v < b := by
          simpa [memBucket, bucketLower, bucketUpper] using hmem
        exact absurd hvb (not_lt.mpr h)
      | succ k =>
        rw [memBucket_cons_succ b rest k v h] at hmem
        have hk : k ≤ rest.length := Nat.succ_le_succ_iff.mp (by simpa using hj)
        have hkeq := ih hs.2 k hk hmem
        simp [bucketIndex, h, hkeq]
    · have hv : v < b := not_le.mp h
      cases j with
      | zero => simp [bucketIndex, h]
      | succ k =>
        exfalso
        have hk : k < (b :: rest).length := by
          simpa using Nat.lt_of_succ_le hj
        obtain ⟨lo, hlo⟩ : ∃ lo, (b :: rest)[k]? = some lo :=
          ⟨_, List.getElem?_eq_getElem hk⟩
        have h1 : bucketLower (b :: rest) (k + 1) = some lo := by
          simp [bucketLower, hlo]
        simp only [memBucket, h1, Bool.and_eq_true, decide_eq_true_eq] at hmem
        have hmemlist : lo ∈ b :: rest := by
          have := List.getElem?_eq_some.mp hlo
          exact this.2 ▸ List.getElem_mem this.1
        have hblo : b ≤ lo := by
          rcases List.mem_cons.mp hmemlist with hE | hR
          · exact le_of_eq hE.symm
          · exact hs.1 lo hR
        exact absurd (le_trans hblo hmem.1) h

theorem bucketLower_boundary (bounds : List ℚ) (b : ℚ)
    (hs : List.Sorted (· ≤ ·) bounds) (hmem : b ∈ bounds) :
    bucketLower bounds (bucketIndex bounds b) = some b := by
  induction bounds with
  | nil => cases hmem
  | cons c rest ih =>
    rw [List.sorted_cons] at hs
    have hcb : c ≤ b := by
      rcases List.mem_cons.mp hmem with hE | hR
      · exact le_of_eq hE.symm
      · exact hs.1 b hR
    by_cases hbr : b ∈ rest
    · have ihh := ih hs.2 hbr
      cases hidx : bucketIndex rest b with
      | zero => rw [hidx] at ihh; simp [bucketLower] at ihh
      | succ m =>
        rw [hidx] at ihh
        have hrm : rest[m]? = some b := by
          simpa [bucketLower] using ihh
        simp [bucketIndex, hcb, hidx, bucketLower, hrm]
    · have hbc : b = c := by
        rcases List.mem_cons.mp hmem with hE | hR
        · exact hE
        · exact absurd hR hbr
      subst hbc
      have hidx0 : bucketIndex rest b = 0 := by
        cases rest with
        | nil => rfl
        | cons r rs =>
          have hcr : b ≤ r := hs.1 r (List.mem_cons_self r rs)
          have hnr : ¬ r ≤ b := by
            intro hrb
            have hrbeq : r = b := le_antisymm hrb hcr
            exact hbr (hrbeq ▸ List.mem_cons_self r rs)
          simp [bucketIndex, hnr]
      simp [bucketIndex, hidx0, bucketLower]

/-- C2 (amended): for sorted boundaries classification is total and
unambiguous — every sample falls into exactly one of the `n + 1` derived
buckets — a sample exactly equal to a boundary `b` falls into the bucket
where `b` is the lower bound (half-open `[lower, upper)` buckets), and the
worked example over boundaries `[1, 5, 10]` with samples
`0.5, 1, 4.9, 5, 100` yields the counts `1, 2, 1, 1`. -/
theorem bucket_classification_total (bounds : List ℚ) (v b : ℚ)
    (hs : List.Sorted (· ≤ ·) bounds) :
    (bucketIndex bounds v ≤ bounds.length ∧
     memBucket bounds (bucketIndex bounds v) v = true ∧
     ∀ j, j ≤ bounds.length → memBucket bounds j v = true →
       j = bucketIndex bounds v) ∧
    (b ∈ bounds → bucketLower bounds (bucketIndex bounds b) = some b) ∧
    bucketCounts [1, 5, 10] [1 / 2, 1, 49 / 10, 5, 100] = [1, 2, 1, 1] := by
  refine ⟨⟨bucketIndex_le_length bounds v, memBucket_bucketIndex bounds v hs,
    memBucket_unique bounds v hs⟩,
    fun hb => bucketLower_boundary bounds b hs hb, ?_⟩
  norm_num [bucketCounts, bucketIndex, List.filter, List.range, List.range.loop]

theorem bucket_classification_total_witness :
    bucketIndex [1, 5, 10] (7 : ℚ) ≤ 3 ∧
    memBucket [1, 5, 10] (bucketIndex [1, 5, 10] (7 : ℚ)) 7 = true ∧
    bucketLower [1, 5, 10] (bucketIndex [1, 5, 10] (5 : ℚ)) = some 5 := by
  have h7 := bucket_classification_total [1, 5, 10] 7 5 (by decide)
  exact ⟨h7.1.1, h7.1.2.1, h7.2.1 (by decide)⟩

/-- C2 counterexample: with boundaries `[1, 5, 10]`, the sample `1.0` —
exactly equal to the boundary `1.0` — does not fall into the bucket whose
upper bound is `1.0` (derived bucket 0, which is empty at `1.0`); it falls
into derived bucket 1, whose lower bound is `1.0` and whose upper bound is
`5.0`.  This refutes the claim's tie-breaking sentence, which its own
worked example (`[1.0, 5.0) = 2`, counting the sample `1.0`) also
contradicts. -/
theorem bucket_boundary_upper_cex :
    memBucket [1, 5, 10] 0 (1 : ℚ) = false ∧
    bucketIndex [1, 5, 10] (1 : ℚ) = 1 ∧
    bucketUpper [1, 5, 10] (bucketIndex [1, 5, 10] (1 : ℚ)) = some 5 ∧
    bucketLower [1, 5, 10] (bucketIndex [1, 5, 10] (1 : ℚ)) = some 1 := by
  decide

/-- C6: `MakeLinearValueBuckets(start, width, count)` fails fast for a
count below 1, and for `count ≥ 1` produces exactly `count` boundaries
`start + i*width`, strictly sorted ascending when `width > 0`, and all
equal to `start` in the legal degenerate case `width = 0`. -/
theorem make_linear_value_buckets_spec (start width : ℚ) (count : Int) :
    (count < 1 →
      MakeLinearValueBuckets start width count =
        .error "n needs to be more than 0") ∧
    (1 ≤ count →
      MakeLinearValueBuckets start width count =
        .ok (linearBucketList start width count.toNat) ∧
      (linearBucketList start width count.toNat).length = count.toNat ∧
      (∀ i, i < count.toNat →
        (linearBucketList start width count.toNat)[i]? =
          some (start + (i : ℚ) * width)) ∧
      (0 < width →
        List.Sorted (· < ·) (linearBucketList start width count.toNat)) ∧
      (width = 0 →
        ∀ x ∈ linearBucketList start width count.toNat, x = start)) := by
  constructor
  · intro h
    simp [MakeLinearValueBuckets, h]
  · intro h
    have hnot : ¬ count < 1 := not_lt.mpr h
    refine ⟨by simp [MakeLinearValueBuckets, hnot], ?_, ?_, ?_, ?_⟩
    · simp only [linearBucketList, List.length_map, List.length_range]
    · intro i hi
      simp only [linearBucketList, List.getElem?_map, List.getElem?_range hi,
        Option.map_some']
    · intro hw
      exact pairwise_lt_map_range _ _ (fun i j hij => add_lt_add_left
        (mul_lt_mul_of_pos_right (Nat.cast_lt.mpr hij) hw) start)
    · intro hw x hx
      rcases List.mem_map.mp hx with ⟨i, _, rfl⟩
      simp [hw]

theorem make_linear_value_buckets_spec_witness :
    MakeLinearValueBuckets 2 3 (-1) = .error "n needs to be more than 0" ∧
    MakeLinearValueBuckets 2 3 4 = .ok (linearBucketList 2 3 4) :=
  ⟨(make_linear_value_buckets_spec 2 3 (-1)).1 (by decide),
   ((make_linear_value_buckets_spec 2 3 4).2 (by decide)).1⟩

/-- C7: `MakeExponentialValueBuckets(start, factor, count)` fails fast at
construction for a count below 1, a non-positive start, or a factor of at
most 1; for `start > 0`, `factor > 1` and `count ≥ 1` it succeeds and
produces exactly `count` values `start * factor^i`, strictly increasing. -/
theorem make_exponential_value_buckets_spec (start factor : ℚ) (count : Int) :
    (count < 1 →
      MakeExponentialValueBuckets start factor count =
        .error "n needs to be more than 0") ∧
    (1 ≤ count → start ≤ 0 →
      MakeExponentialValueBuckets start factor count =
        .error "start needs to be more than 0") ∧
    (1 ≤ count → 0 < start → factor ≤ 1 →
      MakeExponentialValueBuckets start factor count =
        .error "factor needs to be more than 1") ∧
    (1 ≤ count → 0 < start → 1 < factor →
      MakeExponentialValueBuckets start factor count =
        .ok (expBucketList start factor count.toNat) ∧
      (expBucketList start factor count.toNat).length = count.toNat ∧
      (∀ i, i < count.toNat →
        (expBucketList start factor count.toNat)[i]? =
          some (start * factor ^ i)) ∧
      List.Sorted (· < ·) (expBucketList start factor count.toNat)) := by
  refine ⟨?_, ?_, ?_, ?_⟩
  · intro h
    simp [MakeExponentialValueBuckets, h]
  · intro h hstart
    simp [MakeExponentialValueBuckets, not_lt.mpr h, hstart]
  · intro h hstart hfactor
    simp [MakeExponentialValueBuckets, not_lt.mpr h, not_le.mpr hstart, hfactor]
  · intro h hstart hfactor
    have hnot : ¬ count < 1 := not_lt.mpr h
    refine ⟨by simp [MakeExponentialValueBuckets, hnot, not_le.mpr hstart,
      not_le.mpr hfactor], ?_, ?_, ?_⟩
    · simp only [expBucketList, List.length_map, List.length_range]
    · intro i hi
      simp only [expBucketList, List.getElem?_map, List.getElem?_range hi,
        Option.map_some']
    · exact pairwise_lt_map_range _ _ (fun i j hij => mul_lt_mul_of_pos_left
        (pow_lt_pow_right₀ hfactor hij) hstart)

theorem make_exponential_value_buckets_spec_witness :
    MakeExponentialValueBuckets (-1) 2 3 = .error "start needs to be more than 0" ∧
    MakeExponentialValueBuckets 1 1 3 = .error "factor needs to be more than 1" ∧
    MakeExponentialValueBuckets 1 2 3 = .ok (expBucketList 1 2 3) :=
  ⟨(make_exponential_value_buckets_spec (-1) 2 3).2.1 (by decide) (by decide),
   (make_exponential_value_buckets_spec 1 1 3).2.2.1 (by decide) (by decide)
     (by decide),
   ((make_exponential_value_buckets_spec 1 2 3).2.2.2 (by decide) (by decide)
     (by decide)).1⟩

theorem lookupTag_append (xs ys : Tags) (k : String) :
    lookupTag (xs ++ ys) k =
      match lookupTag xs k with
      | some v => some v
      | none => lookupTag ys k := by
  induction xs with
  | nil => rfl
  | cons p rest ih =>
    obtain ⟨pk, pv⟩ := p
    by_cases h : pk = k
    · simp [lookupTag, h]
    · simp [lookupTag, h, ih]

theorem lookupTag_filter_none (parent child : Tags) (k : String)
    (h : lookupTag child k = none) :
    lookupTag (parent.filter (fun p => lookupTag child p.1 = none)) k =
      lookupTag parent k := by
  induction parent with
  | nil => rfl
  | cons p rest ih =>
    obtain ⟨pk, pv⟩ := p
    by_cases hk : pk = k
    · subst hk
      simp [List.filter, lookupTag, h]
    · by_cases hc : lookupTag child pk = none
      · simp [List.filter, lookupTag, hk, hc, ih]
      · simp [List.filter, lookupTag, hk, hc, ih]

theorem lookupTag_mergeTags (parent child : Tags) (k : String) :
    lookupTag (mergeTags parent child) k =
      match lookupTag child k with
      | some v => some v
      | none => lookupTag parent k := by
  rw [mergeTags, lookupTag_append]
  cases h : lookupTag child k with
  | some v => rfl
  | none => simp [lookupTag_filter_none parent child k h]

/-- C9: tag and name inheritance: a scope created by `Tagged` keeps the
parent name and carries the parent tags overlaid with its own tags, the
child winning every key collision (in particular a child retagging `env`
to `staging` over a parent `env: prod` yields `env: staging` while keeping
`shard: 1`); a scope created by `SubScope` extends the name by the child
segment and keeps the tags unchanged. -/
theorem tag_name_inheritance (sc : ScopeObj) (ts : Tags) (seg k : String) :
    ((Registry.empty.tagged sc ts).2.sname = sc.sname) ∧
    ((Registry.empty.tagged sc ts).2.stags = mergeTags sc.stags ts) ∧
    (∀ v, lookupTag ts k = some v →
      lookupTag ((Registry.empty.tagged sc ts).2.stags) k = some v) ∧
    (lookupTag ts k = none →
      lookupTag ((Registry.empty.tagged sc ts).2.stags) k =
        lookupTag sc.stags k) ∧
    ((Registry.empty.subScope sc seg).2.sname = joinName sc.sname seg) ∧
    ((Registry.empty.subScope sc seg).2.stags = sc.stags) ∧
    (lookupTag (mergeTags [("env", "prod"), ("shard", "1")]
        [("env", "staging")]) "env" = some "staging" ∧
     lookupTag (mergeTags [("env", "prod"), ("shard", "1")]
        [("env", "staging")]) "shard" = some "1") := by
  refine ⟨rfl, rfl, ?_, ?_, rfl, rfl, by decide⟩
  · intro v hv
    have hm := lookupTag_mergeTags sc.stags ts k
    rw [hv] at hm
    exact hm
  · intro hn
    have hm := lookupTag_mergeTags sc.stags ts k
    rw [hn] at hm
    exact hm

theorem tag_name_inheritance_witness :
    lookupTag ((Registry.empty.tagged ⟨0, "root", [("env", "prod")]⟩
      [("env", "staging"), ("shard", "1")]).2.stags) "env" = some "staging" := by
  have h := tag_name_inheritance ⟨0, "root", [("env", "prod")]⟩
    [("env", "staging"), ("shard", "1")] "db" "env"
  exact h.2.2.1 "staging" (by decide)

theorem tagged_twice (reg : Registry) (sc : ScopeObj) (ts ts' : Tags)
    (h : sortTags (mergeTags sc.stags ts) = sortTags (mergeTags sc.stags ts')) :
    (reg.tagged sc ts).1.tagged sc ts' = reg.tagged sc ts := by
  cases hfind : findScope reg (sc.sname, sortTags (mergeTags sc.stags ts)) with
  | some s =>
    simp only [Registry.tagged, hfind, ← h]
  | none =>
    simp only [Registry.tagged, hfind, ← h]
    simp [findScope, List.find?]

theorem subscope_twice (reg : Registry) (sc : ScopeObj) (seg : String) :
    (reg.subScope sc seg).1.subScope sc seg = reg.subScope sc seg := by
  cases hfind : findScope reg (joinName sc.sname seg, sortTags sc.stags) with
  | some s =>
    simp only [Registry.subScope, hfind]
  | none =>
    simp only [Registry.subScope, hfind]
    simp [findScope, List.find?]

theorem counter_twice (reg : Registry) (sc : ScopeObj) (nm : String) :
    ((reg.counter sc nm).1).counter sc nm = reg.counter sc nm := by
  cases hfind : (reg.counters.find? (fun e => e.1 = (sc.sid, nm))).map
      (fun e => e.2) with
  | some c =>
    simp only [Registry.counter, hfind]
  | none =>
    simp only [Registry.counter, hfind]
    simp [List.find?]

/-- C8: `Tagged` and `SubScope` are idempotent via caching: a repeated
`Tagged` call whose arguments produce the same (name, merged tag set) key
— structural equality of the merged tag set, not identity of the argument
map — returns the already cached child scope and leaves the registry
unchanged, a repeated `SubScope` call likewise, and a counter fetched by
the same name through the scope returned by either call is the same cached
accumulator. -/
theorem tagged_subscope_cached_idempotent (reg : Registry) (sc : ScopeObj)
    (ts ts' : Tags) (seg nm : String)
    (h : sortTags (mergeTags sc.stags ts) = sortTags (mergeTags sc.stags ts')) :
    ((reg.tagged sc ts).1.tagged sc ts' = reg.tagged sc ts) ∧
    ((reg.subScope sc seg).1.subScope sc seg = reg.subScope sc seg) ∧
    (((reg.tagged sc ts).1.counter (reg.tagged sc ts).2 nm).1.counter
        ((reg.tagged sc ts).1.tagged sc ts').2 nm =
      (reg.tagged sc ts).1.counter (reg.tagged sc ts).2 nm) := by
  refine ⟨tagged_twice reg sc ts ts' h, subscope_twice reg sc seg, ?_⟩
  rw [tagged_twice reg sc ts ts' h]
  exact counter_twice (reg.tagged sc ts).1 (reg.tagged sc ts).2 nm

theorem tagged_subscope_cached_idempotent_witness :
    (Registry.empty.tagged ⟨0, "", []⟩ [("a", "1"), ("b", "2")]).1.tagged
        ⟨0, "", []⟩ [("b", "2"), ("a", "1")] =
      Registry.empty.tagged ⟨0, "", []⟩ [("a", "1"), ("b", "2")] := by
  have h := tagged_subscope_cached_idempotent Registry.empty ⟨0, "", []⟩
    [("a", "1"), ("b", "2")] [("b", "2"), ("a", "1")] "db" "reqs" (by decide)
  exact h.1

/-- C10: `Stop` has no nil guard on its recorder: on the zero-value
stopwatch (nil recorder interface) the call faults, while any stopwatch
built by `NewStopwatch` with a non-nil recorder stops safely. -/
theorem stop_nil_recorder_faults :
    zeroStopwatch.Stop = none ∧
    ∀ (t : Time) (r : Nat), ((NewStopwatch t (some r)).Stop).isSome = true := by
  exact ⟨rfl, fun t r => rfl⟩

end Tally
